import Mathlib

/-!
Shallow embedding of the parallel multi-market workflow engine of
`src/scenarios/scenario5_workflow.py` (class `WorkflowMultiMarketScenario`),
together with the data model it uses.

The data classes `MarketSearchStatus`, `MarketSearchResult` and
`AggregatedMarketResults` are imported by the scenario from `core.models`,
whose file in the snapshot stops before their definitions; their fields are
reconstructed from every constructor call in `scenario5_workflow.py` and from
the spec's §3 data model, which lists the same fields.

Python `asyncio` specifics modelled explicitly:
- a task body either completes with a value or raises; `asyncio.gather`
  with `return_exceptions=True` stores either the value or the exception at
  the index of the task, independently of completion order;
- `asyncio.wait_for` raising `asyncio.TimeoutError` is a separate branch;
- `except Exception` catches exactly the exceptions deriving from
  `Exception`; `asyncio.CancelledError` derives from `BaseException` only
  (Python ≥ 3.8, and the file targets Python 3.10), so it is NOT caught by
  an `except Exception` handler.
-/

/-- Scenario constant `MARKET_TIMEOUT_SECONDS = 90` (per-market timeout). -/
def MARKET_TIMEOUT_SECONDS : Nat := 90

/-- Scenario constant `OVERALL_TIMEOUT_SECONDS = 300` (workflow timeout). -/
def OVERALL_TIMEOUT_SECONDS : Nat := 300

/-- Scenario constant `MAX_CONCURRENT_SEARCHES = 10` (concurrency cap). -/
def MAX_CONCURRENT_SEARCHES : Nat := 10

/-- `core.models.Citation`: `url`, `title`, optional offsets. -/
structure Citation where
  url : String
  title : String
  start_index : Option Int := none
  end_index : Option Int := none
deriving DecidableEq, Repr

/-- Status enum used by the workflow: `SUCCESS | TIMEOUT | ERROR`.
Modelled from the spec: the enum body is missing from the snapshot of
`core/models.py`; the spec's §3 `RegionOutcomeStatus` lists exactly these
three alternatives, and `scenario5_workflow.py` uses exactly these members. -/
inductive MarketSearchStatus where
  | SUCCESS
  | TIMEOUT
  | ERROR
deriving DecidableEq, Repr

/-- Modelled from the spec: the `.value` strings of `MarketSearchStatus` are
not in the snapshot; the scenario only pipes them through to metadata and to
the analysis context (`result.status.value`, `.upper()`), so the usual
lower-case member names are used. No claim depends on the exact strings. -/
def MarketSearchStatus.value : MarketSearchStatus → String
  | .SUCCESS => "success"
  | .TIMEOUT => "timeout"
  | .ERROR => "error"

/-- `core.models.MarketSearchResult`, fields as constructed throughout
`scenario5_workflow.py` (the spec's §3 `RegionOutcome`). `error_message`
defaults to `None`: the SUCCESS construction at line 452 omits it. -/
structure MarketSearchResult where
  market : String
  status : MarketSearchStatus
  text : String
  citations : List Citation
  execution_time_ms : Nat
  error_message : Option String := none
deriving DecidableEq, Repr

/-- `core.models.AggregatedMarketResults`, fields as constructed in
`_aggregate_results` (the spec's §3 `AggregatedResult`). -/
structure AggregatedMarketResults where
  successful_markets : List String
  failed_markets : List String
  results : List MarketSearchResult
  total_citations : List Citation
  total_execution_time_ms : Nat
deriving DecidableEq, Repr

/-- `core.models.AnalysisResponse` restricted to the fields the workflow
engine computes (`text`, `citations`, `market_used`); the free-form
`metadata` dict is observational and not modelled. -/
structure AnalysisResponse where
  text : String
  citations : List Citation
  market_used : String
deriving DecidableEq, Repr

/-- A Python exception as seen by an `except Exception` handler:
`exception s` is any exception deriving from `Exception` (carrying
`str(e)`); `cancelledError` is `asyncio.CancelledError`, which derives only
from `BaseException` in Python ≥ 3.8 and is therefore not caught by
`except Exception`. -/
inductive PyError where
  | exception : String → PyError
  | cancelledError : PyError
deriving DecidableEq, Repr

/-- Outcome of the race run by `_search_single_market`'s
`asyncio.wait_for(do_search(), timeout=MARKET_TIMEOUT_SECONDS)`:
either `do_search` returns a provider response first (abstracted, per the
spec's §9, to the text and the citations `_extract_citations` yields from
it), or the timer fires first (`asyncio.TimeoutError`), or the provider
call raises. -/
inductive SearchStep where
  | providerReturns : String → List Citation → SearchStep
  | timerFires : SearchStep
  | providerRaises : PyError → SearchStep
deriving DecidableEq, Repr

/-- `_search_single_market` (lines 375–489): one region search, reduced to
a `MarketSearchResult` by the `try/except asyncio.TimeoutError/except
Exception` ladder. `elapsed_ms` is `int((time.time() - start_time) * 1000)`
at the instant the branch runs. The function returns `Except.error` exactly
when an exception escapes the handlers: `except Exception` does not catch
`asyncio.CancelledError`. -/
def search_single_market (market : String) (step : SearchStep) (elapsed_ms : Nat) :
    Except PyError MarketSearchResult :=
  match step with
  | .providerReturns text citations =>
      .ok { market := market, status := .SUCCESS, text := text,
            citations := citations, execution_time_ms := elapsed_ms,
            error_message := none }
  | .timerFires =>
      .ok { market := market, status := .TIMEOUT, text := "", citations := [],
            execution_time_ms := elapsed_ms,
            error_message := some ("Search timed out after " ++
              toString MARKET_TIMEOUT_SECONDS ++ "s") }
  | .providerRaises (.exception e) =>
      .ok { market := market, status := .ERROR, text := "", citations := [],
            execution_time_ms := elapsed_ms, error_message := some e }
  | .providerRaises .cancelledError =>
      .error .cancelledError

/-- One slot of `asyncio.gather(*tasks, return_exceptions=True)`: the task
either produced a `MarketSearchResult` or raised (the exception object is
stored; the model records `str(result)`). -/
inductive TaskResult where
  | ok : MarketSearchResult → TaskResult
  | exn : String → TaskResult
deriving DecidableEq, Repr

/-- The synthesized outcome `_execute_parallel_searches` builds for a market
when the overall `asyncio.wait_for` timeout fires (lines 337–344). -/
def overallTimeoutResult (market : String) : MarketSearchResult :=
  { market := market, status := .TIMEOUT, text := "", citations := [],
    execution_time_ms := OVERALL_TIMEOUT_SECONDS * 1000,
    error_message := some "Overall workflow timeout exceeded" }

/-- The per-slot post-processing loop of `_execute_parallel_searches`
(lines 346–371): an exception slot becomes an `ERROR` outcome for
`markets[i]`, a `MarketSearchResult` slot passes through unchanged. -/
def processResult (market : String) : TaskResult → MarketSearchResult
  | .ok r => r
  | .exn e =>
      { market := market, status := .ERROR, text := "", citations := [],
        execution_time_ms := 0, error_message := some e }

/-- Collects a full `gather` result: `some` when every task reached a
terminal slot before the overall deadline, `none` as soon as one is still
outstanding (then `asyncio.wait_for` raises `asyncio.TimeoutError` and the
partial results are lost). -/
def sequenceOptions {α : Type} : List (Option α) → Option (List α)
  | [] => some []
  | none :: _ => none
  | some a :: rest => (sequenceOptions rest).map (a :: ·)

/-- `_execute_parallel_searches` (lines 298–373). `completions` holds, per
requested market in request order, either `some` terminal gather slot or
`none` for a task still outstanding when `OVERALL_TIMEOUT_SECONDS` elapses.
If all slots are terminal, `gather` returns them in task order; otherwise
the `except asyncio.TimeoutError` branch rebuilds `results` as an
overall-timeout entry for EVERY market (lines 335–344). Either way the
post-processing loop pairs `markets[i]` with `results[i]`. -/
def execute_parallel_searches (markets : List String)
    (completions : List (Option TaskResult)) : List MarketSearchResult :=
  let results : List TaskResult :=
    match sequenceOptions completions with
    | some rs => rs
    | none => markets.map (fun m => TaskResult.ok (overallTimeoutResult m))
  (markets.zip results).map (fun p => processResult p.1 p.2)

/-- `_aggregate_results` (lines 596–618): partition by `status == SUCCESS`,
concatenate the citations of the successful results in order, sum the
execution times of all results. -/
def aggregate_results (market_results : List MarketSearchResult) :
    AggregatedMarketResults :=
  let successful := market_results.filter (fun r => r.status = .SUCCESS)
  let failed := market_results.filter (fun r => ¬ (r.status = .SUCCESS))
  let all_citations := successful.foldl (fun acc r => acc ++ r.citations) []
  let total_time := (market_results.map (fun r => r.execution_time_ms)).sum
  { successful_markets := successful.map (fun r => r.market)
    failed_markets := failed.map (fun r => r.market)
    results := market_results
    total_citations := all_citations
    total_execution_time_ms := total_time }

/-- Python truthiness fallback `s or d` for an `Optional[str]` `s`:
`None` and `""` are falsy. -/
def pyOrStr (s : Option String) (d : String) : String :=
  match s with
  | none => d
  | some v => if v = "" then d else v

/-- Python `'sep'.join(parts)`. -/
def pyJoin (sep : String) : List String → String
  | [] => ""
  | [s] => s
  | s :: rest => s ++ sep ++ pyJoin sep rest

/-- The default-market substitution at `execute` lines 164–165:
`if not markets: markets = [request.search_config.market or "en-US"]`.
`markets0 = none` is an absent argument, `some []` an empty list; both are
falsy. `configMarket` is `request.search_config.market : Optional[str]`. -/
def effectiveMarkets (markets0 : Option (List String))
    (configMarket : Option String) : List String :=
  match markets0 with
  | none => [pyOrStr configMarket "en-US"]
  | some [] => [pyOrStr configMarket "en-US"]
  | some ms => ms

/-- Python truthiness fallback `s or d` for a plain string (only `""` is
falsy). -/
def pyOrS (s d : String) : String :=
  if s = "" then d else s

/-- One section of `_build_market_context` (lines 706–728): the f-string
for a SUCCESS result, or the f-string for a TIMEOUT/ERROR result (note the
`error_message or 'Unknown error'` fallback and `status.value.upper()`). -/
def contextPart (r : MarketSearchResult) : String :=
  if r.status = .SUCCESS then
    "\n### " ++ r.market ++ " - SUCCESS " ++
    "(" ++ toString r.citations.length ++ " sources found)" ++
    "\n**Execution Time:** " ++ toString r.execution_time_ms ++
    "ms\n\n**Findings:**\n" ++ r.text ++ "\n\n---\n"
  else
    "\n### " ++ r.market ++ " - " ++ r.status.value.toUpper ++
    "\n**Status:** " ++ r.status.value ++
    "\n**Error:** " ++ pyOrStr r.error_message "Unknown error" ++
    "\n**Execution Time:** " ++ toString r.execution_time_ms ++
    "ms\n\n*No data available for this market.*\n\n---\n"

/-- `_build_market_context` (lines 702–730): one section per result, in
`aggregated.results` order, joined with `"\n"`. -/
def build_market_context (aggregated : AggregatedMarketResults) : String :=
  pyJoin "\n" (aggregated.results.map contextPart)

/-- The part of the `analysis_prompt` f-string of
`_generate_cross_market_analysis` (lines 631–640) that precedes the
embedded `{market_context}`. -/
def analysisPromptHead (company : String)
    (aggregated : AggregatedMarketResults) : String :=
  "# Cross-Market Risk Analysis Request\n\n## Company: " ++ company ++
  "\n\n## Search Results Summary\n- **Successful Markets (" ++
  toString aggregated.successful_markets.length ++ "):** " ++
  pyOrS (pyJoin ", " aggregated.successful_markets) "None" ++
  "\n- **Failed Markets (" ++
  toString aggregated.failed_markets.length ++ "):** " ++
  pyOrS (pyJoin ", " aggregated.failed_markets) "None" ++
  "\n- **Total Citations Found:** " ++
  toString aggregated.total_citations.length ++
  "\n\n## Market-Specific Findings\n\n"

/-- The fixed part of the `analysis_prompt` f-string that follows the
embedded `{market_context}` (lines 644–667). -/
def analysisPromptTail : String :=
  "\n\n---\n\n## Your Analysis Task\n\n" ++
  "Based on the market-specific findings above, provide a comprehensive cross-market risk analysis:\n\n" ++
  "### 1. Market-by-Market Summary\nSummarize the key findings from each successful market search.\n\n" ++
  "### 2. Cross-Market Patterns\nWhat themes, concerns, or findings appear consistently across multiple markets?\n\n" ++
  "### 3. Regional Differences\nHow does the company\x27s perception or risk profile vary between regions?\n\n" ++
  "### 4. Global Risk Assessment\nProvide an overall risk assessment considering all markets. Rate the risk level and explain.\n\n" ++
  "### 5. Data Gaps\nNote any limitations due to failed market searches or missing information.\n\n" ++
  "---\n\nIMPORTANT: Base your analysis ONLY on the search results provided above. Do not use external knowledge."

/-- The `analysis_prompt` f-string of `_generate_cross_market_analysis`
(lines 631–667): the summary header, the embedded market context, and the
fixed analysis-task tail. -/
def analysisPrompt (company : String) (aggregated : AggregatedMarketResults) :
    String :=
  analysisPromptHead company aggregated ++ build_market_context aggregated ++
  analysisPromptTail

/-- `_generate_cross_market_analysis` (lines 620–700). The external
Synthesis Provider (`openai_client.responses.create` on the analysis agent)
is a parameter; the first component records the exact sequence of provider
invocations the function performs (the source has a single
`responses.create` call site, line 677, run once, no retry loop). An error
of the provider propagates (the function body has no handler), carrying
`str(e)`. -/
def generate_cross_market_analysis (company : String)
    (aggregated : AggregatedMarketResults)
    (synthesize : String → Except String String) :
    List String × Except String AnalysisResponse :=
  let analysis_prompt := analysisPrompt company aggregated
  ([analysis_prompt],
    match synthesize analysis_prompt with
    | .ok text =>
        .ok { text := text, citations := [],
              market_used := pyJoin "," aggregated.successful_markets }
    | .error e => .error e)

/-- `execute` (lines 147–296) reduced to its data flow: default-market
substitution, Stage 2 dispatch, Stage 3 aggregation, Stage 4 synthesis,
final `AnalysisResponse` assembly (lines 273–291: the workflow's own
response carries `aggregated.total_citations`). The surrounding
`try/except` re-raises any exception (line 296), so a synthesis failure
surfaces as `Except.error`. -/
def executeWorkflow (company : String) (markets0 : Option (List String))
    (configMarket : Option String) (completions : List (Option TaskResult))
    (synthesize : String → Except String String) :
    Except String AnalysisResponse :=
  let markets := effectiveMarkets markets0 configMarket
  let market_results := execute_parallel_searches markets completions
  let aggregated := aggregate_results market_results
  match (generate_cross_market_analysis company aggregated synthesize).2 with
  | .ok final =>
      .ok { text := final.text, citations := aggregated.total_citations,
            market_used := pyJoin "," aggregated.successful_markets }
  | .error e => .error e

/-- State of `asyncio.Semaphore(MAX_CONCURRENT_SEARCHES)` together with the
number of tasks currently inside the `async with semaphore` block of
`search_with_semaphore` (lines 310–321): `available` is the semaphore
counter, `running` the number of in-flight region searches. -/
structure SemState where
  available : Nat
  running : Nat
deriving DecidableEq, Repr

/-- An event of the semaphore discipline: a task entering the
`async with semaphore` block (acquire) or leaving it (release). -/
inductive SemEvent where
  | acquire
  | release
deriving DecidableEq, Repr

/-- One semaphore transition: `acquire` only proceeds when the counter is
positive (otherwise the task waits — no transition); `release` returns a
slot when a task leaves the block. -/
def semStep (s : SemState) : SemEvent → Option SemState
  | .acquire =>
      if s.available = 0 then none
      else some ⟨s.available - 1, s.running + 1⟩
  | .release =>
      if s.running = 0 then none
      else some ⟨s.available + 1, s.running - 1⟩

/-- Run a sequence of semaphore events from a state; `none` when an event
cannot fire (an acquire on an exhausted counter, i.e. a task that must
wait). -/
def runSem (s : SemState) : List SemEvent → Option SemState
  | [] => some s
  | e :: rest =>
      match semStep s e with
      | none => none
      | some s2 => runSem s2 rest

/-- The dispatcher's initial semaphore state:
`asyncio.Semaphore(self.MAX_CONCURRENT_SEARCHES)` with no task running. -/
def semInit (cmax : Nat) : SemState := ⟨cmax, 0⟩

/-! ### Helper lemmas -/

/-- The citation-collecting `for` loop of `_aggregate_results` (an
`extend` fold) produces the concatenation of the citation lists. -/
theorem foldl_append_citations (l : List MarketSearchResult)
    (acc : List Citation) :
    l.foldl (fun acc r => acc ++ r.citations) acc
      = acc ++ l.flatMap (fun r => r.citations) := by
  induction l generalizing acc with
  | nil => simp
  | cons r rest ih => simp [List.foldl_cons, ih, List.append_assoc]

/-- Splitting a sum of mapped values along a filter and its complement. -/
theorem sum_map_filter_add_filter_not {α : Type} (p : α → Bool) (f : α → Nat)
    (l : List α) :
    ((l.filter p).map f).sum + ((l.filter (fun a => ! p a)).map f).sum
      = (l.map f).sum := by
  induction l with
  | nil => simp
  | cons a rest ih =>
      by_cases h : p a
      · simp [List.filter_cons, h, ← ih, Nat.add_assoc]
      · simp [List.filter_cons, h, ← ih, Nat.add_left_comm, Nat.add_assoc]

/-! ### C1: citation aggregation -/

/-- A first-market success carrying the shared URL with its own title. -/
def rSuccessA : MarketSearchResult :=
  { market := "en-US", status := .SUCCESS, text := "findings A",
    citations := [{ url := "https://dup.example/x", title := "title A" }],
    execution_time_ms := 5 }

/-- A second-market success whose citation repeats the first market's URL
under a different title. -/
def rSuccessB : MarketSearchResult :=
  { market := "de-DE", status := .SUCCESS, text := "findings B",
    citations := [{ url := "https://dup.example/x", title := "title B" }],
    execution_time_ms := 6 }

/-- C1 counterexample: `_aggregate_results` performs no cross-market URL
deduplication — two successful markets citing the same URL yield two
entries with equal `url` in `total_citations`, so the claimed
"no two entries with equal url" invariant fails. -/
theorem aggregate_citations_duplicate_url_across_markets :
    ¬ (((aggregate_results [rSuccessA, rSuccessB]).total_citations.map
        Citation.url).Nodup) := by
  decide

/-- C1 amended: the aggregator concatenates the citations of the Success
outcomes in region order then per-outcome order, without any cross-region
deduplication by `url` (URL dedup happens only inside `_extract_citations`,
per single response, before the aggregator runs). -/
theorem aggregate_total_citations_eq_concat_of_successful
    (market_results : List MarketSearchResult) :
    (aggregate_results market_results).total_citations
      = (market_results.filter (fun r => r.status = .SUCCESS)).flatMap
          (fun r => r.citations) := by
  simp [aggregate_results, foldl_append_citations]

/-! ### C7: total elapsed time -/

/-- C7: `total_execution_time_ms` is the sum of `execution_time_ms` over
all outcomes in the aggregate — successful and failed partitions alike
contribute, so it is cumulative per-region work, not wall-clock time. -/
theorem aggregate_total_time_eq_sum_over_all_outcomes
    (market_results : List MarketSearchResult) :
    (aggregate_results market_results).total_execution_time_ms
        = (((aggregate_results market_results).results).map
            (fun r => r.execution_time_ms)).sum
      ∧ (aggregate_results market_results).total_execution_time_ms
        = (((market_results.filter (fun r => r.status = .SUCCESS)).map
              (fun r => r.execution_time_ms)).sum
          + ((market_results.filter (fun r => ¬ (r.status = .SUCCESS))).map
              (fun r => r.execution_time_ms)).sum) := by
  constructor
  · rfl
  · have h := sum_map_filter_add_filter_not
      (fun r => decide (r.status = MarketSearchStatus.SUCCESS))
      (fun r => r.execution_time_ms) market_results
    simp only [aggregate_results]
    simp only [decide_not] at h ⊢
    omega

/-! ### C10: default-market substitution -/

/-- C10: an absent (`None`) or empty market list is replaced by the
singleton `[request.search_config.market or "en-US"]`: the configured
market when it is a non-empty string, `"en-US"` when none is configured;
a non-empty list passes through unchanged. -/
theorem execute_default_market_substitution (configMarket : Option String) :
    effectiveMarkets none configMarket = [pyOrStr configMarket "en-US"]
  ∧ effectiveMarkets (some []) configMarket = [pyOrStr configMarket "en-US"]
  ∧ (configMarket = none → pyOrStr configMarket "en-US" = "en-US")
  ∧ (∀ m, configMarket = some m → m ≠ "" → pyOrStr configMarket "en-US" = m)
  ∧ (∀ ms, ms ≠ [] → effectiveMarkets (some ms) configMarket = ms) := by
  refine ⟨rfl, rfl, ?_, ?_, ?_⟩
  · intro h; subst h; rfl
  · intro m hm hne; subst hm; simp [pyOrStr, hne]
  · intro ms hne
    cases ms with
    | nil => exact absurd rfl hne
    | cons a rest => rfl

/-- C10 witness: concretely, a `None` market list with configured market
`"fr-FR"` runs the workflow over exactly `["fr-FR"]`. -/
theorem execute_default_market_substitution_applied :
    effectiveMarkets none (some "fr-FR") = ["fr-FR"] := by
  have h := execute_default_market_substitution (some "fr-FR")
  have h2 := h.2.2.2.1 "fr-FR" rfl (by decide)
  rw [h.1, h2]

/-! ### C9: concurrency cap -/

/-- Reachable semaphore states preserve `available + running = cmax`. -/
theorem runSem_invariant (cmax : Nat) :
    ∀ (tr : List SemEvent) (s s' : SemState),
      s.available + s.running = cmax → runSem s tr = some s' →
      s'.available + s'.running = cmax := by
  intro tr
  induction tr with
  | nil =>
      intro s s' hinv hrun
      simp [runSem] at hrun
      subst hrun; exact hinv
  | cons e rest ih =>
      intro s s' hinv hrun
      cases e with
      | acquire =>
          by_cases h0 : s.available = 0
          · simp [runSem, semStep, h0] at hrun
          · simp only [runSem, semStep, h0, if_false] at hrun
            refine ih _ s' ?_ hrun
            show s.available - 1 + (s.running + 1) = cmax
            omega
      | release =>
          by_cases h0 : s.running = 0
          · simp [runSem, semStep, h0] at hrun
          · simp only [runSem, semStep, h0, if_false] at hrun
            refine ih _ s' ?_ hrun
            show s.available + 1 + (s.running - 1) = cmax
            omega

/-- C9: under the dispatcher's semaphore discipline
(`asyncio.Semaphore(MAX_CONCURRENT_SEARCHES)` around each region search),
every reachable state has at most `MAX_CONCURRENT_SEARCHES = 10` searches
in flight, and a further task cannot acquire (must wait) exactly when no
slot is available. -/
theorem semaphore_caps_in_flight_searches (tr : List SemEvent) (s : SemState)
    (h : runSem (semInit MAX_CONCURRENT_SEARCHES) tr = some s) :
    s.running ≤ 10
  ∧ (semStep s SemEvent.acquire = none ↔ s.available = 0) := by
  have hinv := runSem_invariant MAX_CONCURRENT_SEARCHES tr
    (semInit MAX_CONCURRENT_SEARCHES) s (by simp [semInit]) h
  constructor
  · have : MAX_CONCURRENT_SEARCHES = 10 := rfl
    omega
  · constructor
    · intro hnone
      by_cases h0 : s.available = 0
      · exact h0
      · simp [semStep, h0] at hnone
    · intro h0; simp [semStep, h0]

/-- C9 witness: after two tasks acquire from a fresh semaphore, two
searches are in flight, within the cap of 10. -/
theorem semaphore_caps_in_flight_searches_applied :
    (⟨8, 2⟩ : SemState).running ≤ 10
  ∧ (semStep (⟨8, 2⟩ : SemState) SemEvent.acquire = none
      ↔ (⟨8, 2⟩ : SemState).available = 0) :=
  semaphore_caps_in_flight_searches [SemEvent.acquire, SemEvent.acquire]
    ⟨8, 2⟩ (by decide)

/-! ### More helper lemmas: gather slots and the post-processing zip -/

/-- A fully terminal slot list sequences to a list of the same length. -/
theorem sequenceOptions_length {α : Type} :
    ∀ (l : List (Option α)) (rs : List α),
      sequenceOptions l = some rs → rs.length = l.length := by
  intro l
  induction l with
  | nil => intro rs h; simp [sequenceOptions] at h; subst h; rfl
  | cons c rest ih =>
      intro rs h
      match c, h with
      | none, h => simp [sequenceOptions] at h
      | some a, h =>
          simp only [sequenceOptions] at h
          cases hr : sequenceOptions rest with
          | none => rw [hr] at h; simp at h
          | some rs' =>
              rw [hr] at h
              simp at h
              subst h
              simp [ih rs' hr]

/-- Every element of a sequenced slot list was a terminal slot. -/
theorem sequenceOptions_mem {α : Type} :
    ∀ (l : List (Option α)) (rs : List α),
      sequenceOptions l = some rs → ∀ x ∈ rs, some x ∈ l := by
  intro l
  induction l with
  | nil =>
      intro rs h x hx
      simp [sequenceOptions] at h; subst h; simp at hx
  | cons c rest ih =>
      intro rs h x hx
      match c, h with
      | none, h => simp [sequenceOptions] at h
      | some a, h =>
          simp only [sequenceOptions] at h
          cases hr : sequenceOptions rest with
          | none => rw [hr] at h; simp at h
          | some rs' =>
              rw [hr] at h
              simp at h
              subst h
              rcases List.mem_cons.mp hx with rfl | hx'
              · exact List.mem_cons_self _ _
              · exact List.mem_cons_of_mem _ (ih rs' hr x hx')

/-- Indexing through a sequenced slot list. -/
theorem sequenceOptions_getElem {α : Type} :
    ∀ (l : List (Option α)) (rs : List α),
      sequenceOptions l = some rs → ∀ i : Nat, l[i]? = (rs[i]?).map some := by
  intro l
  induction l with
  | nil =>
      intro rs h i
      simp [sequenceOptions] at h; subst h; simp
  | cons c rest ih =>
      intro rs h i
      match c, h with
      | none, h => simp [sequenceOptions] at h
      | some a, h =>
          simp only [sequenceOptions] at h
          cases hr : sequenceOptions rest with
          | none => rw [hr] at h; simp at h
          | some rs' =>
              rw [hr] at h
              simp at h
              subst h
              cases i with
              | zero => simp
              | succ j => simpa using ih rs' hr j

/-- A slot list containing an outstanding task does not sequence. -/
theorem sequenceOptions_eq_none_of_mem_none {α : Type} :
    ∀ (l : List (Option α)), none ∈ l → sequenceOptions l = none := by
  intro l
  induction l with
  | nil => intro h; simp at h
  | cons c rest ih =>
      intro h
      match c, h with
      | none, h => rfl
      | some a, h =>
          rcases List.mem_cons.mp h with h0 | h'
          · exact absurd h0.symm (by simp)
          · simp [sequenceOptions, ih h']

/-- Zipping a list against its own image and mapping a binary function. -/
theorem zip_self_map {α β γ : Type} (g : α → β) (h : α → β → γ) :
    ∀ (l : List α),
      ((l.zip (l.map g)).map (fun p => h p.1 p.2)) = l.map (fun a => h a (g a)) := by
  intro l
  induction l with
  | nil => rfl
  | cons a rest ih => simp [List.zip_cons_cons, ih]

/-- Length of the post-processing pass of `_execute_parallel_searches`. -/
theorem execute_parallel_searches_length (markets : List String)
    (completions : List (Option TaskResult))
    (h : completions.length = markets.length) :
    (execute_parallel_searches markets completions).length = markets.length := by
  unfold execute_parallel_searches
  cases hseq : sequenceOptions completions with
  | none => simp
  | some rs =>
      have hlen := sequenceOptions_length completions rs hseq
      simp [List.length_zip, hlen, h]

/-- Splitting a length along a filter and its complement. -/
theorem length_filter_add_length_filter_not {α : Type} (p : α → Bool) :
    ∀ (l : List α),
      (l.filter p).length + (l.filter (fun a => ! p a)).length = l.length := by
  intro l
  induction l with
  | nil => rfl
  | cons a rest ih =>
      by_cases h : p a
      · simp [List.filter_cons, h]
        omega
      · simp [List.filter_cons, h]
        omega

/-! ### C2: behavior when the overall timeout fires -/

/-- C2 counterexample: with market `"en-US"` already completed successfully
(`rSuccessA` sits in its gather slot) but `"de-DE"` still outstanding when
`OVERALL_TIMEOUT_SECONDS` elapses, the dispatcher does NOT keep the
completed outcome: both markets come back as synthesized overall-timeout
entries, and `rSuccessA` is nowhere in the output. -/
theorem dispatcher_overall_timeout_discards_completed :
    execute_parallel_searches ["en-US", "de-DE"]
        [some (TaskResult.ok rSuccessA), none]
      = [overallTimeoutResult "en-US", overallTimeoutResult "de-DE"]
  ∧ rSuccessA ∉ execute_parallel_searches ["en-US", "de-DE"]
        [some (TaskResult.ok rSuccessA), none]
  ∧ rSuccessA.status = MarketSearchStatus.SUCCESS := by
  refine ⟨by decide, by decide, rfl⟩

/-- C2 amended: if the overall workflow timeout elapses before all region
tasks finish (at least one gather slot is still outstanding), the
dispatcher returns immediately with a synthesized overall-timeout `Timeout`
outcome — message `"Overall workflow timeout exceeded"`, elapsed
`OVERALL_TIMEOUT_SECONDS * 1000` — for EVERY requested market, the
already-completed outcomes included: `asyncio.wait_for` discards the
partial `gather` results, and the `except asyncio.TimeoutError` branch
rebuilds the whole result list. -/
theorem dispatcher_overall_timeout_all_markets (markets : List String)
    (completions : List (Option TaskResult)) (h : none ∈ completions) :
    execute_parallel_searches markets completions
      = markets.map overallTimeoutResult := by
  unfold execute_parallel_searches
  rw [sequenceOptions_eq_none_of_mem_none completions h]
  exact zip_self_map (fun m => TaskResult.ok (overallTimeoutResult m))
    (fun m t => processResult m t) markets

/-- C2 witness: one completed success and one outstanding slot concretely
collapse to two overall-timeout outcomes. -/
theorem dispatcher_overall_timeout_all_markets_applied :
    execute_parallel_searches ["en-US", "de-DE"]
        [some (TaskResult.ok rSuccessA), none]
      = [overallTimeoutResult "en-US", overallTimeoutResult "de-DE"] :=
  dispatcher_overall_timeout_all_markets ["en-US", "de-DE"]
    [some (TaskResult.ok rSuccessA), none] (by decide)

/-! ### C5: exhaustive success/failure partition -/

/-- C5: for a complete dispatcher output over `N` requested markets (one
gather slot per market), the aggregate's partition is exhaustive:
`len(successful_markets) + len(failed_markets) = len(results) = N`. -/
theorem aggregate_partition_exhaustive (markets : List String)
    (completions : List (Option TaskResult))
    (h : completions.length = markets.length) :
    (aggregate_results (execute_parallel_searches markets completions)).successful_markets.length
      + (aggregate_results (execute_parallel_searches markets completions)).failed_markets.length
      = (aggregate_results (execute_parallel_searches markets completions)).results.length
  ∧ (aggregate_results (execute_parallel_searches markets completions)).results.length
      = markets.length := by
  constructor
  · have hf := length_filter_add_length_filter_not
      (fun r => decide (r.status = MarketSearchStatus.SUCCESS))
      (execute_parallel_searches markets completions)
    simp only [aggregate_results, List.length_map]
    simpa [decide_not] using hf
  · exact execute_parallel_searches_length markets completions h

/-- C5 witness: one requested market with one terminal slot gives
`1 + 0 = 1 = 1`. -/
theorem aggregate_partition_exhaustive_applied :
    (aggregate_results (execute_parallel_searches ["en-US"]
        [some (TaskResult.ok rSuccessA)])).successful_markets.length
      + (aggregate_results (execute_parallel_searches ["en-US"]
        [some (TaskResult.ok rSuccessA)])).failed_markets.length
      = (aggregate_results (execute_parallel_searches ["en-US"]
        [some (TaskResult.ok rSuccessA)])).results.length
  ∧ (aggregate_results (execute_parallel_searches ["en-US"]
        [some (TaskResult.ok rSuccessA)])).results.length
      = (["en-US"] : List String).length :=
  aggregate_partition_exhaustive ["en-US"] [some (TaskResult.ok rSuccessA)]
    (by decide)

/-! ### C4 and C6: region task outcome shape -/

/-- The two branch shapes of `_execute_parallel_searches`, split on whether
every gather slot is terminal. -/
theorem execute_eq_of_seq_none (markets : List String)
    (completions : List (Option TaskResult))
    (h : sequenceOptions completions = none) :
    execute_parallel_searches markets completions
      = markets.map overallTimeoutResult := by
  unfold execute_parallel_searches
  rw [h]
  exact zip_self_map (fun m => TaskResult.ok (overallTimeoutResult m))
    (fun m t => processResult m t) markets

/-- With a complete gather, the dispatcher is the post-processing zip. -/
theorem execute_eq_of_seq_some (markets : List String)
    (completions : List (Option TaskResult)) (rs : List TaskResult)
    (h : sequenceOptions completions = some rs) :
    execute_parallel_searches markets completions
      = (markets.zip rs).map (fun p => processResult p.1 p.2) := by
  unfold execute_parallel_searches
  rw [h]

/-- C4 counterexample: a provider call interrupted by
`asyncio.CancelledError` (a cancellation artifact) is NOT reduced to a
`RegionOutcome`: the `except Exception` handler of `_search_single_market`
does not match it, and it propagates to the caller. -/
theorem search_task_cancellation_escapes :
    search_single_market "en-US"
        (SearchStep.providerRaises PyError.cancelledError) 5
      = Except.error PyError.cancelledError := rfl

/-- C4 amended: `_search_single_market` reduces a provider result to
`Success` (copying text and extracted citations), a `T_region` timer expiry
to `Timeout` (with the fixed descriptive message), and any
`Exception`-derived provider exception to `Error` with `str(e)` — never
rethrowing those; but `asyncio.CancelledError`, which does not derive from
`Exception`, escapes the handler ladder and propagates to the caller. -/
theorem search_task_outcome_classification (market : String)
    (elapsed_ms : Nat) :
    (∀ text citations,
      search_single_market market (SearchStep.providerReturns text citations)
          elapsed_ms
        = Except.ok { market := market, status := .SUCCESS, text := text,
                      citations := citations,
                      execution_time_ms := elapsed_ms,
                      error_message := none })
  ∧ search_single_market market SearchStep.timerFires elapsed_ms
      = Except.ok { market := market, status := .TIMEOUT, text := "",
                    citations := [], execution_time_ms := elapsed_ms,
                    error_message := some ("Search timed out after " ++
                      toString MARKET_TIMEOUT_SECONDS ++ "s") }
  ∧ ("Search timed out after " ++ toString MARKET_TIMEOUT_SECONDS ++ "s")
      = "Search timed out after 90s"
  ∧ (∀ e, search_single_market market
        (SearchStep.providerRaises (PyError.exception e)) elapsed_ms
      = Except.ok { market := market, status := .ERROR, text := "",
                    citations := [], execution_time_ms := elapsed_ms,
                    error_message := some e })
  ∧ search_single_market market
        (SearchStep.providerRaises PyError.cancelledError) elapsed_ms
      = Except.error PyError.cancelledError := by
  exact ⟨fun _ _ => rfl, rfl, by decide, fun _ => rfl, rfl⟩

/-- The spec's §3 per-outcome invariant: a Success outcome carries no error
message; a Timeout/Error outcome carries empty text and no citations. -/
def outcomeInvariant (r : MarketSearchResult) : Prop :=
  (r.status = .SUCCESS → r.error_message = none)
  ∧ (r.status = .TIMEOUT ∨ r.status = .ERROR →
      r.text = "" ∧ r.citations = [])

/-- Every `RegionOutcome` the region search task returns satisfies the
status invariant. -/
theorem search_ok_invariant :
    ∀ (m : String) (step : SearchStep) (e : Nat) (r : MarketSearchResult),
      search_single_market m step e = Except.ok r → outcomeInvariant r := by
  intro m step e r h
  match step, h with
  | .providerReturns t cs, h =>
      simp only [search_single_market, Except.ok.injEq] at h
      subst h
      exact ⟨fun _ => rfl, fun hd =>
        hd.elim (fun h1 => MarketSearchStatus.noConfusion h1)
                (fun h2 => MarketSearchStatus.noConfusion h2)⟩
  | .timerFires, h =>
      simp only [search_single_market, Except.ok.injEq] at h
      subst h
      exact ⟨fun hs => MarketSearchStatus.noConfusion hs, fun _ => ⟨rfl, rfl⟩⟩
  | .providerRaises (.exception msg), h =>
      simp only [search_single_market, Except.ok.injEq] at h
      subst h
      exact ⟨fun hs => MarketSearchStatus.noConfusion hs, fun _ => ⟨rfl, rfl⟩⟩
  | .providerRaises .cancelledError, h =>
      exact Except.noConfusion h

/-- C6: every outcome in the dispatcher's output satisfies the status
invariant, provided each terminal gather slot holding a result came from
the region search task (as in the real pipeline, where the tasks are
exactly `_search_single_market` calls): Success outcomes have no error
message, Timeout/Error outcomes have empty text and no citations — the
dispatcher's own synthesized entries (overall-timeout `Timeout`s and
exception-slot `Error`s) included. -/
theorem dispatcher_outcomes_satisfy_status_invariant
    (markets : List String) (completions : List (Option TaskResult))
    (h : ∀ c ∈ completions, ∀ r, c = some (TaskResult.ok r) →
          ∃ m step e, search_single_market m step e = Except.ok r) :
    ∀ out ∈ execute_parallel_searches markets completions,
      outcomeInvariant out := by
  intro out hout
  cases hseq : sequenceOptions completions with
  | none =>
      rw [execute_eq_of_seq_none markets completions hseq] at hout
      obtain ⟨m, _, rfl⟩ := List.mem_map.mp hout
      exact ⟨fun hs => MarketSearchStatus.noConfusion hs,
        fun _ => ⟨rfl, rfl⟩⟩
  | some rs =>
      rw [execute_eq_of_seq_some markets completions rs hseq] at hout
      obtain ⟨p, hp, rfl⟩ := List.mem_map.mp hout
      obtain ⟨m, tr⟩ := p
      have hmem : tr ∈ rs := (List.of_mem_zip hp).2
      cases tr with
      | exn e =>
          exact ⟨fun hs => MarketSearchStatus.noConfusion hs,
            fun _ => ⟨rfl, rfl⟩⟩
      | ok r =>
          have hc : some (TaskResult.ok r) ∈ completions :=
            sequenceOptions_mem completions rs hseq _ hmem
          obtain ⟨m', step, e, hsearch⟩ := h _ hc r rfl
          exact search_ok_invariant m' step e r hsearch

/-- C6 witness: the concrete success outcome `rSuccessA`, fed through a
one-market dispatch, satisfies the invariant. -/
theorem dispatcher_outcomes_satisfy_status_invariant_applied :
    outcomeInvariant rSuccessA :=
  dispatcher_outcomes_satisfy_status_invariant ["en-US"]
    [some (TaskResult.ok rSuccessA)]
    (fun c hc r hr => by
      have hc' : c = some (TaskResult.ok rSuccessA) := by
        simpa using hc
      rw [hc'] at hr
      have : rSuccessA = r := by
        injection hr with h1
        injection h1
      exact ⟨"en-US", SearchStep.providerReturns "findings A"
        [{ url := "https://dup.example/x", title := "title A" }], 5,
        by rw [← this]; rfl⟩)
    rSuccessA (by decide)

/-! ### C3: output order matches request order, independent of completion
order -/

/-- The slot array of `asyncio.gather(*tasks, return_exceptions=True)`,
assembled from completion events. `events` lists `(taskIndex, slotValue)`
pairs in the order the tasks happened to complete; `gather` stores each
value at the index of its task, so slot `i` holds the value of the event
for task `i` regardless of where that event sits in the completion order
(`none` when task `i` never completed). -/
def gatherAssemble (n : Nat) (events : List (Nat × TaskResult)) :
    List (Option TaskResult) :=
  (List.range n).map
    (fun i => (events.find? (fun e => e.1 == i)).map Prod.snd)

/-- `_execute_parallel_searches` driven by an explicit completion order:
the gather slots are assembled from the completion events, then processed
as in the source. -/
def dispatchFromEvents (markets : List String)
    (events : List (Nat × TaskResult)) : List MarketSearchResult :=
  execute_parallel_searches markets (gatherAssemble markets.length events)

/-- A completion event is market-consistent when a task result stored for
position `i` carries `markets[i]` as its market (which
`_search_single_market` guarantees: every branch sets `market=market`). -/
def slotMarketConsistent (markets : List String)
    (e : Nat × TaskResult) : Bool :=
  match e.2 with
  | .ok r => markets[e.1]? == some r.market
  | .exn _ => true

/-- `find?` is determined by membership when keys are unique. -/
theorem find_eq_some_of_unique_keys {β : Type} :
    ∀ (l : List (Nat × β)) (i : Nat) (e : Nat × β),
      (l.map Prod.fst).Nodup → e ∈ l → e.1 = i →
      l.find? (fun x => x.1 == i) = some e := by
  intro l
  induction l with
  | nil => intro i e _ he _; simp at he
  | cons a rest ih =>
      intro i e hnd he hi
      rcases List.mem_cons.mp he with rfl | he'
      · exact List.find?_cons_of_pos _ (by simp [hi])
      · have hnd' : a.1 ∉ rest.map Prod.fst ∧ (rest.map Prod.fst).Nodup := by
          simpa using hnd
        have hai : ¬ (a.1 = i) := by
          intro hcontra
          exact hnd'.1 (hcontra ▸ hi ▸ List.mem_map_of_mem Prod.fst he')
        rw [List.find?_cons_of_neg _ (by simp [hai])]
        exact ih i e hnd'.2 he' hi

/-- Mapping a function pointwise equal on members. -/
theorem list_map_congr {α β : Type} (f g : α → β) :
    ∀ (l : List α), (∀ a ∈ l, f a = g a) → l.map f = l.map g := by
  intro l
  induction l with
  | nil => intro _; rfl
  | cons a rest ih =>
      intro h
      simp only [List.map_cons, h a (List.mem_cons_self a rest)]
      rw [ih (fun x hx => h x (List.mem_cons_of_mem a hx))]

/-- The gather slot array depends only on which events happened, not on
the completion order: any permutation of a duplicate-free event list
assembles to the same slots. -/
theorem gatherAssemble_perm (n : Nat)
    (events evts2 : List (Nat × TaskResult))
    (hperm : events.Perm evts2)
    (hnd : (events.map Prod.fst).Nodup) :
    gatherAssemble n events = gatherAssemble n evts2 := by
  unfold gatherAssemble
  apply list_map_congr
  intro i _
  cases hfind : events.find? (fun e => e.1 == i) with
  | none =>
      have hall := List.find?_eq_none.mp hfind
      have h2 : evts2.find? (fun e => e.1 == i) = none :=
        List.find?_eq_none.mpr (fun x hx => hall x (hperm.mem_iff.mpr hx))
      rw [h2]
  | some e =>
      have he : e ∈ events := List.mem_of_find?_eq_some hfind
      have hpe := List.find?_some hfind
      have hnd2 : (evts2.map Prod.fst).Nodup :=
        ((hperm.map Prod.fst).nodup_iff).mp hnd
      have h2 : evts2.find? (fun x => x.1 == i) = some e :=
        find_eq_some_of_unique_keys evts2 i e hnd2 (hperm.mem_iff.mp he)
          (by simpa using hpe)
      rw [h2]

/-- The post-processing zip echoes the request order when every stored
result carries the market of its position. -/
theorem zip_process_map_market :
    ∀ (markets : List String) (rs : List TaskResult),
      rs.length = markets.length →
      (∀ (i : Nat) (r : MarketSearchResult),
        rs[i]? = some (TaskResult.ok r) → markets[i]? = some r.market) →
      (((markets.zip rs).map (fun p => processResult p.1 p.2)).map
          (fun r => r.market)) = markets := by
  intro markets
  induction markets with
  | nil =>
      intro rs h _
      cases rs with
      | nil => rfl
      | cons a t => simp at h
  | cons m ms ih =>
      intro rs h hidx
      cases rs with
      | nil => simp at h
      | cons tr trs =>
          have hlen : trs.length = ms.length := by simpa using h
          have htail : ∀ (i : Nat) (r : MarketSearchResult),
              trs[i]? = some (TaskResult.ok r) → ms[i]? = some r.market := by
            intro i r hr
            have hstep := hidx (i + 1) r (by simpa using hr)
            simpa using hstep
          have hhead : (processResult m tr).market = m := by
            cases tr with
            | exn e => rfl
            | ok r =>
                have hzero := hidx 0 r (by simp)
                simp only [List.getElem?_cons_zero, Option.some.injEq] at hzero
                show r.market = m
                exact hzero.symm
          simp [List.zip_cons_cons, hhead, ih trs hlen htail]

/-- The overall-timeout branch also echoes the request order. -/
theorem map_market_overallTimeout (l : List String) :
    ((l.map overallTimeoutResult).map (fun r => r.market)) = l := by
  induction l with
  | nil => rfl
  | cons a t ih => simp [overallTimeoutResult, ih]

/-- C3: the dispatcher's output order is exactly the input region list
order, regardless of completion order: (a) assembling the same set of
completion events in any order yields the same output list; (b) the
outputs' market sequence equals the requested market list (given that each
stored task result carries the market of its position, as
`_search_single_market` guarantees); (c) `allOutcomes` in the aggregate is
that same dispatcher output. -/
theorem dispatcher_output_preserves_request_order
    (markets : List String) (events evts2 : List (Nat × TaskResult))
    (hperm : events.Perm evts2)
    (hkeys : (events.map Prod.fst).Perm (List.range markets.length))
    (hmk : ∀ e ∈ events, slotMarketConsistent markets e = true) :
    dispatchFromEvents markets events = dispatchFromEvents markets evts2
  ∧ ((dispatchFromEvents markets events).map (fun r => r.market)) = markets
  ∧ (aggregate_results (dispatchFromEvents markets events)).results
      = dispatchFromEvents markets events := by
  have hnd : (events.map Prod.fst).Nodup :=
    hkeys.nodup_iff.mpr (List.nodup_range _)
  refine ⟨?_, ?_, rfl⟩
  · unfold dispatchFromEvents
    rw [gatherAssemble_perm markets.length events evts2 hperm hnd]
  · unfold dispatchFromEvents
    cases hseq : sequenceOptions (gatherAssemble markets.length events) with
    | none =>
        rw [execute_eq_of_seq_none _ _ hseq]
        exact map_market_overallTimeout markets
    | some rs =>
        rw [execute_eq_of_seq_some _ _ rs hseq]
        apply zip_process_map_market markets rs
        · have h1 := sequenceOptions_length _ rs hseq
          have h2 : (gatherAssemble markets.length events).length
              = markets.length := by
            simp [gatherAssemble]
          rw [h1, h2]
        · intro i r hr
          have hgi := sequenceOptions_getElem _ rs hseq i
          rw [hr] at hgi
          simp only [gatherAssemble, List.getElem?_map, Option.map_some] at hgi
          cases hri : (List.range markets.length)[i]? with
          | none => rw [hri] at hgi; simp at hgi
          | some j =>
              rw [hri] at hgi
              injection hgi with hgi2
              replace hgi2 : (events.find? (fun e => e.1 == j)).map Prod.snd
                  = some (TaskResult.ok r) := hgi2
              have hilt : i < markets.length := by
                by_contra hge
                have hge2 : markets.length ≤ i := Nat.le_of_not_lt hge
                have hnone : (List.range markets.length)[i]? = none :=
                  List.getElem?_eq_none (by simpa using hge2)
                rw [hnone] at hri
                exact Option.noConfusion hri
              have hji : j = i := by
                rw [List.getElem?_range hilt] at hri
                injection hri with hji
                exact hji.symm
              subst hji
              cases hfind : events.find? (fun e => e.1 == j) with
              | none => rw [hfind] at hgi2; simp at hgi2
              | some ev =>
                  rw [hfind] at hgi2
                  obtain ⟨k, tr2⟩ := ev
                  have hpe := List.find?_some hfind
                  have hkj : k = j := by simpa using hpe
                  have hev : (k, tr2) ∈ events :=
                    List.mem_of_find?_eq_some hfind
                  have hcons := hmk (k, tr2) hev
                  have htr : tr2 = TaskResult.ok r := by
                    injection hgi2 with h2x
                  subst htr
                  subst hkj
                  simpa [slotMarketConsistent] using hcons

/-- C3 witness: two markets completing in reverse order produce the same
output as completing in request order, and the output markets read
`["en-US", "de-DE"]` — the request order. -/
theorem dispatcher_output_preserves_request_order_applied :
    dispatchFromEvents ["en-US", "de-DE"]
        [(1, TaskResult.ok rSuccessB), (0, TaskResult.ok rSuccessA)]
      = dispatchFromEvents ["en-US", "de-DE"]
        [(0, TaskResult.ok rSuccessA), (1, TaskResult.ok rSuccessB)]
  ∧ ((dispatchFromEvents ["en-US", "de-DE"]
        [(1, TaskResult.ok rSuccessB), (0, TaskResult.ok rSuccessA)]).map
          (fun r => r.market)) = ["en-US", "de-DE"]
  ∧ (aggregate_results (dispatchFromEvents ["en-US", "de-DE"]
        [(1, TaskResult.ok rSuccessB), (0, TaskResult.ok rSuccessA)])).results
      = dispatchFromEvents ["en-US", "de-DE"]
        [(1, TaskResult.ok rSuccessB), (0, TaskResult.ok rSuccessA)] :=
  dispatcher_output_preserves_request_order ["en-US", "de-DE"]
    [(1, TaskResult.ok rSuccessB), (0, TaskResult.ok rSuccessA)]
    [(0, TaskResult.ok rSuccessA), (1, TaskResult.ok rSuccessB)]
    (by decide) (by decide) (by decide)

/-! ### C8: synthesis stage -/

/-- Every joined part is a contiguous piece of a Python `sep.join`. -/
theorem pyJoin_contains (sep : String) :
    ∀ (parts : List String) (s : String), s ∈ parts →
      ∃ a b, pyJoin sep parts = a ++ s ++ b := by
  intro parts
  induction parts with
  | nil => intro s hs; simp at hs
  | cons p rest ih =>
      intro s hs
      cases rest with
      | nil =>
          rcases List.mem_cons.mp hs with rfl | h'
          · exact ⟨"", "", by
              simp [pyJoin, String.empty_append, String.append_empty]⟩
          · simp at h'
      | cons q qs =>
          rcases List.mem_cons.mp hs with rfl | h'
          · refine ⟨"", sep ++ pyJoin sep (q :: qs), ?_⟩
            show pyJoin sep (s :: q :: qs)
              = "" ++ s ++ (sep ++ pyJoin sep (q :: qs))
            simp [pyJoin, String.empty_append, String.append_assoc]
          · obtain ⟨a, b, hab⟩ := ih s h'
            refine ⟨p ++ sep ++ a, b, ?_⟩
            show pyJoin sep (p :: q :: qs) = p ++ sep ++ a ++ s ++ b
            rw [show pyJoin sep (p :: q :: qs)
              = p ++ sep ++ pyJoin sep (q :: qs) from rfl, hab]
            simp [String.append_assoc]

/-- The failing market's `rSuccessA`/`rSuccessB` companion: a timed-out
region outcome, as `_search_single_market`'s timeout branch builds it. -/
def rTimeoutC : MarketSearchResult :=
  { market := "ja-JP", status := .TIMEOUT, text := "", citations := [],
    execution_time_ms := 90000,
    error_message := some "Search timed out after 90s" }

/-- C8: per workflow invocation, (a) the Synthesis Provider is invoked
exactly once, on the single composed analysis prompt; (b) that prompt
embeds the market context block; (c) the context block contains one
section per region outcome, in order; (d) a Success section carries the
region's findings text, a Timeout/Error section carries both the status
value and the failure reason (`error_message or 'Unknown error'`) — failed
regions are surfaced, not omitted; (e) the workflow invocation fails
(`Except.error`, no report) exactly when that one synthesis call fails,
and with the same error — no other stage of the data flow produces an
error. -/
theorem synthesis_called_once_and_sole_fatal_error
    (company : String) (aggregated : AggregatedMarketResults)
    (synthesize : String → Except String String) :
    (generate_cross_market_analysis company aggregated synthesize).1
      = [analysisPrompt company aggregated]
  ∧ (generate_cross_market_analysis company aggregated synthesize).1.length
      = 1
  ∧ (∃ a b, analysisPrompt company aggregated
      = a ++ build_market_context aggregated ++ b)
  ∧ (∀ r ∈ aggregated.results, ∃ a b,
      build_market_context aggregated = a ++ contextPart r ++ b)
  ∧ (∀ r : MarketSearchResult,
      (r.status = .SUCCESS → ∃ a b, contextPart r = a ++ r.text ++ b)
    ∧ (¬ (r.status = .SUCCESS) →
        (∃ a b, contextPart r
          = a ++ pyOrStr r.error_message "Unknown error" ++ b)
      ∧ (∃ a b, contextPart r = a ++ r.status.value ++ b)))
  ∧ (∀ (markets0 : Option (List String)) (configMarket : Option String)
        (completions : List (Option TaskResult)) (e : String),
      executeWorkflow company markets0 configMarket completions synthesize
          = Except.error e
        ↔ synthesize (analysisPrompt company (aggregate_results
            (execute_parallel_searches
              (effectiveMarkets markets0 configMarket) completions)))
          = Except.error e) := by
  refine ⟨rfl, rfl, ⟨analysisPromptHead company aggregated,
    analysisPromptTail, rfl⟩, ?_, ?_, ?_⟩
  · intro r hr
    exact pyJoin_contains "\n" (aggregated.results.map contextPart)
      (contextPart r) (List.mem_map_of_mem contextPart hr)
  · intro r
    constructor
    · intro hs
      refine ⟨"\n### " ++ r.market ++ " - SUCCESS " ++ "(" ++
        toString r.citations.length ++ " sources found)" ++
        "\n**Execution Time:** " ++ toString r.execution_time_ms ++
        "ms\n\n**Findings:**\n", "\n\n---\n", ?_⟩
      simp only [contextPart, if_pos hs]
    · intro hs
      constructor
      · refine ⟨"\n### " ++ r.market ++ " - " ++ r.status.value.toUpper ++
          "\n**Status:** " ++ r.status.value ++ "\n**Error:** ",
          "\n**Execution Time:** " ++ toString r.execution_time_ms ++
          "ms\n\n*No data available for this market.*\n\n---\n", ?_⟩
        simp only [contextPart, if_neg hs]
        simp [String.append_assoc]
      · refine ⟨"\n### " ++ r.market ++ " - " ++ r.status.value.toUpper ++
          "\n**Status:** ",
          "\n**Error:** " ++ pyOrStr r.error_message "Unknown error" ++
          "\n**Execution Time:** " ++ toString r.execution_time_ms ++
          "ms\n\n*No data available for this market.*\n\n---\n", ?_⟩
        simp only [contextPart, if_neg hs]
        simp [String.append_assoc]
  · intro markets0 configMarket completions e
    unfold executeWorkflow generate_cross_market_analysis
    cases hs : synthesize (analysisPrompt company (aggregate_results
        (execute_parallel_searches (effectiveMarkets markets0 configMarket)
          completions))) with
    | ok t => simp [hs]
    | error e2 => simp [hs]

/-- C8 witness: on the concrete aggregate of one success and one timeout,
the context block contains the timed-out region's section. -/
theorem synthesis_called_once_and_sole_fatal_error_applied :
    ∃ a b, build_market_context (aggregate_results [rSuccessA, rTimeoutC])
      = a ++ contextPart rTimeoutC ++ b :=
  (synthesis_called_once_and_sole_fatal_error "ACME Corp"
      (aggregate_results [rSuccessA, rTimeoutC])
      (fun _ => Except.ok "cross-market analysis")).2.2.2.1
    rTimeoutC (by decide)
